import Mathlib

/-!
Verification development for the recipe-extraction engine of `recipe_api.py`.

Python strings are embedded as `List Char`; Python `float` values arising from
quantity parsing are embedded as `ℚ` (every value the code produces comes from
decimal literals, fractions and sums of such, all exactly representable);
Python exceptions are embedded with `Except PyErr`.
-/

/-- Python string model: a list of characters. -/
abbrev Str := List Char

/-- Python exceptions that the engine can raise. -/
inductive PyErr where
  | zeroDivisionError
  | typeError
  | attributeError
deriving DecidableEq, Repr

instance {ε α : Type} [DecidableEq ε] [DecidableEq α] : DecidableEq (Except ε α) := fun a b =>
  match a, b with
  | .error e, .error f =>
    if h : e = f then .isTrue (by rw [h]) else .isFalse (by intro hc; cases hc; exact h rfl)
  | .error _, .ok _ => .isFalse (by intro hc; cases hc)
  | .ok _, .error _ => .isFalse (by intro hc; cases hc)
  | .ok x, .ok y =>
    if h : x = y then .isTrue (by rw [h]) else .isFalse (by intro hc; cases hc; exact h rfl)

/-- Characters treated as whitespace by Python `str.strip` / `str.split` and
by the regex class backslash-s, restricted to the ASCII range. -/
def pyIsSpace (c : Char) : Bool :=
  c = ' ' || c = '\t' || c = '\n' || c = '\r' || c = '\x0b' || c = '\x0c'

/-- Model of Python `str.strip()` with no arguments. -/
def pyStrip (s : Str) : Str :=
  ((s.dropWhile pyIsSpace).reverse.dropWhile pyIsSpace).reverse

/-- Model of Python `str.lower()` (ASCII case mapping; the texts and lexicons
in this development contain no cased non-ASCII letters). -/
def pyLower (s : Str) : Str :=
  s.map Char.toLower

/-- Auxiliary for `pySplitWs`: `acc` is the current token, reversed. -/
def pySplitWsGo (acc : Str) : Str → List Str
  | [] => if acc = [] then [] else [acc.reverse]
  | c :: cs =>
    if pyIsSpace c then
      if acc = [] then pySplitWsGo [] cs else acc.reverse :: pySplitWsGo [] cs
    else
      pySplitWsGo (c :: acc) cs

/-- Model of Python `str.split()` with no arguments: split on whitespace runs,
dropping empty fragments. -/
def pySplitWs (s : Str) : List Str :=
  pySplitWsGo [] s

/-- Model of Python `str.split(sep)` for a one-character separator: split at
every occurrence, keeping empty parts. -/
def pySplitOn (sep : Char) : Str → List Str
  | [] => [[]]
  | c :: cs =>
    if c = sep then [] :: pySplitOn sep cs
    else
      match pySplitOn sep cs with
      | [] => [[c]]
      | p :: ps => (c :: p) :: ps

/-- Model of `re.split` on a character class: split at every character
satisfying `p`, keeping empty parts. -/
def pySplitOnP (p : Char → Bool) : Str → List Str
  | [] => [[]]
  | c :: cs =>
    if p c then [] :: pySplitOnP p cs
    else
      match pySplitOnP p cs with
      | [] => [[c]]
      | q :: qs => (c :: q) :: qs

/-- Model of Python `str.split(sep, 1)` for a one-character separator: the part
before the first occurrence, and (when the separator occurs) the rest. -/
def pySplitOnce (sep : Char) : Str → Str × Option Str
  | [] => ([], none)
  | c :: cs =>
    if c = sep then ([], some cs)
    else
      let r := pySplitOnce sep cs
      (c :: r.1, r.2)

/-- Model of Python `sep.join(tokens)`. -/
def pyJoin (sep : Str) : List Str → Str
  | [] => []
  | [x] => x
  | x :: y :: xs => x ++ sep ++ pyJoin sep (y :: xs)

/-- Numeric value of a digit string. -/
def digitsNat (ds : Str) : ℕ :=
  ds.foldl (fun n c => 10 * n + (c.toNat - ('0').toNat)) 0

/-- Mantissa of a Python float literal: `digits [. digits]` or `. digits`,
consuming the whole string. -/
def pyFloatMantissa (s : Str) : Option ℚ :=
  let a := s.takeWhile Char.isDigit
  let r := s.dropWhile Char.isDigit
  match r with
  | [] => if a = [] then none else some (digitsNat a : ℚ)
  | '.' :: c =>
    let d := c.takeWhile Char.isDigit
    let e := c.dropWhile Char.isDigit
    if e = [] then
      if a = [] ∧ d = [] then none
      else some ((digitsNat a : ℚ) + (digitsNat d : ℚ) / (10 : ℚ) ^ d.length)
    else none
  | _ => none

/-- Model of Python `float(s)` on the syntactic fragment the engine can meet:
optional surrounding whitespace, optional sign, decimal digits with an optional
decimal point. The `inf`/`nan` words, digit-group underscores and exponent
forms of the full literal grammar are not modelled; no claim's input uses them.
Returns `none` where Python raises `ValueError`. -/
def pyFloat (s : Str) : Option ℚ :=
  match pyStrip s with
  | '+' :: r => pyFloatMantissa r
  | '-' :: r => (pyFloatMantissa r).map (fun q => -q)
  | r => pyFloatMantissa r

/-- Embedding of `parse_quantity` restricted to its first two branches (direct
float, then simple fraction). The source's third branch calls `parse_quantity`
recursively on the part after the only `-`, a string containing no `-`, on
which the mixed branch is dead code; `parse_quantity_eq_simple_of_no_dash`
proves that on such strings the full function agrees with this one.
`Except.error .zeroDivisionError` models the uncaught `ZeroDivisionError` of
`float(num) / float(den)` when the denominator parses to zero (the source
catches only `ValueError`). -/
def parse_quantity_simple (token : Str) : Except PyErr (Option ℚ) :=
  let t := pyStrip token
  match pyFloat t with
  | some q => .ok (some q)
  | none =>
    if ('/' ∈ t) ∧ ('-' ∉ t) then
      match pySplitOn '/' t with
      | [num, den] =>
        match pyFloat num, pyFloat den with
        | some n, some d =>
          if d = 0 then .error .zeroDivisionError else .ok (some (n / d))
        | _, _ => .ok none
      | _ => .ok none
    else .ok none

/-- Embedding of the mixed-fraction branch of `parse_quantity` (token contains
a `-`): split on `-`; with exactly two parts, the base is the first part's
float value or `0.0` on `ValueError`, and the fractional part is the recursive
parse of the second part (which contains no `-`, so `parse_quantity_simple`
is the exact behaviour of the recursive call). -/
def parse_quantity_mixed (t : Str) : Except PyErr (Option ℚ) :=
  if ('-' ∈ t) then
    match pySplitOn '-' t with
    | [baseStr, fracStr] =>
      let base := (pyFloat baseStr).getD 0
      match parse_quantity_simple fracStr with
      | .error e => .error e
      | .ok (some f) => .ok (some (base + f))
      | .ok none => .ok none
    | _ => .ok none
  else .ok none

/-- Embedding of `parse_quantity`: direct float, else simple fraction (when
the token has a `/` and no `-`; a two-part split either returns or reports
`ValueError` as `None`, a split into any other number of parts falls through),
else the mixed branch. -/
def parse_quantity (token : Str) : Except PyErr (Option ℚ) :=
  let t := pyStrip token
  match pyFloat t with
  | some q => .ok (some q)
  | none =>
    if ('/' ∈ t) ∧ ('-' ∉ t) then
      match pySplitOn '/' t with
      | [num, den] =>
        match pyFloat num, pyFloat den with
        | some n, some d =>
          if d = 0 then .error .zeroDivisionError else .ok (some (n / d))
        | _, _ => .ok none
      | _ => parse_quantity_mixed t
    else parse_quantity_mixed t

/-- Embedding of the `Ingredient` dataclass. Optional `Dict` fields elsewhere
are embedded as `Option`; here every field is as in the source. -/
structure Ingredient where
  raw : Str
  name : Str
  quantity : Option ℚ
  unit : Option Str
  descriptor : Option Str
  preparation : Option Str
deriving DecidableEq, Repr

/-- The `UNITS` lexicon. -/
def UNITS : List Str :=
  (["teaspoon", "teaspoons", "tsp", "tablespoon", "tablespoons", "tbsp",
    "cup", "cups", "pint", "pints", "quart", "quarts",
    "pound", "pounds", "lb", "lbs",
    "ounce", "ounces", "oz",
    "clove", "cloves",
    "pinch", "dash",
    "slice", "slices",
    "can", "cans",
    "package", "packages"]).map String.toList

/-- The `DESCRIPTORS` lexicon. -/
def DESCRIPTORS : List Str :=
  (["fresh", "dried", "lean", "boneless", "skinless", "extra-virgin",
    "large", "small", "medium",
    "minced", "chopped", "shredded", "grated"]).map String.toList

/-- The `TOOLS` lexicon. -/
def TOOLS : List Str :=
  (["oven", "pan", "skillet", "baking sheet", "baking dish", "dish",
    "pot", "saucepan", "whisk", "bowl", "knife", "spatula", "grater",
    "colander", "mixing bowl", "foil", "grill"]).map String.toList

/-- The `PRIMARY_METHODS` lexicon. -/
def PRIMARY_METHODS : List Str :=
  (["bake", "boil", "simmer", "saute", "sauté", "fry", "grill",
    "broil", "roast", "steam", "poach"]).map String.toList

/-- The `OTHER_METHODS` lexicon. -/
def OTHER_METHODS : List Str :=
  (["chop", "slice", "mince", "stir", "mix", "whisk", "beat",
    "grate", "sprinkle", "drain", "pour", "spread", "layer",
    "preheat", "grease", "cover", "uncover"]).map String.toList

/-- Embedding of `parse_ingredient_line`. The call `parse_quantity(tokens[0])`
can propagate `ZeroDivisionError`, hence the `Except`. -/
def parse_ingredient_line (line : Str) : Except PyErr Ingredient :=
  let raw := pyStrip line
  let tokens := pySplitWs raw
  let qres : Except PyErr (Option ℚ × List Str) :=
    match tokens with
    | [] => .ok (none, tokens)
    | t0 :: rest =>
      match parse_quantity t0 with
      | .error e => .error e
      | .ok (some q) => .ok (some q, rest)
      | .ok none => .ok (none, tokens)
  match qres with
  | .error e => .error e
  | .ok (quantity, tokens1) =>
    let ur : Option Str × List Str :=
      match tokens1 with
      | [] => (none, tokens1)
      | u :: rest =>
        if pyLower u ∈ UNITS then (some (pyLower u), rest) else (none, tokens1)
    let joined := pyJoin [' '] ur.2
    let sc := pySplitOnce ',' joined
    let preparation : Option Str :=
      match sc.2 with
      | some p => let ps := pyStrip p; if ps = [] then none else some ps
      | none => none
    let toks := pySplitWs sc.1
    let descriptor_tokens :=
      (toks.filter (fun t => decide (pyLower t ∈ DESCRIPTORS))).map pyLower
    let name_tokens := toks.filter (fun t => !decide (pyLower t ∈ DESCRIPTORS))
    let descriptor : Option Str :=
      if descriptor_tokens = [] then none else some (pyJoin [' '] descriptor_tokens)
    let name := pyStrip (pyJoin [' '] name_tokens)
    .ok ⟨raw, name, quantity, ur.1, descriptor, preparation⟩

/-- Embedding of `parse_ingredients`: the list comprehension evaluates the
lines in order and the first uncaught exception aborts the whole call. -/
def parse_ingredients : List Str → Except PyErr (List Ingredient)
  | [] => .ok []
  | l :: ls =>
    match parse_ingredient_line l with
    | .error e => .error e
    | .ok i =>
      match parse_ingredients ls with
      | .error e => .error e
      | .ok rest => .ok (i :: rest)

/-- Embedding of `split_into_atomic_steps`: `re.split` on the class `[.;]`,
then strip each part and drop the empty ones. -/
def split_into_atomic_steps (step_text : Str) : List Str :=
  ((pySplitOnP (fun c => c = '.' || c = ';') step_text).map pyStrip).filter
    (fun p => !p.isEmpty)

/-- Word characters for the regex anchor backslash-b: ASCII letters, digits,
underscore. Of the non-ASCII word characters Python also accepts, only `é`
(from the lexicon entry `sauté`) can occur in this development. -/
def isWordChar (c : Char) : Bool :=
  c.isAlpha || c.isDigit || c = '_' || c = 'é'

/-- Wordness of an optional character; the ends of the text count as
non-word. -/
def optWordChar : Option Char → Bool
  | some c => isWordChar c
  | none => false

/-- Does the pattern backslash-b `word` backslash-b (with `word` taken
literally, as produced by `re.escape`) match at the position whose preceding
character is `prev` and whose remaining text is `rest`? -/
def wordMatchAt (word : Str) (prev : Option Char) (rest : Str) : Bool :=
  word.isPrefixOf rest
  && (optWordChar prev != optWordChar rest.head?)
  && (optWordChar ((word.getLast?).orElse (fun _ => prev))
      != optWordChar (rest.drop word.length).head?)

/-- Scan of `re.search` for the pattern backslash-b `word` backslash-b: try
every position left to right. -/
def wordSearchAux (word : Str) (prev : Option Char) : Str → Bool
  | [] => wordMatchAt word prev []
  | c :: cs => wordMatchAt word prev (c :: cs) || wordSearchAux word (some c) cs

/-- Model of `re.search(r"\b" + re.escape(word) + r"\b", text)` returning
whether a match exists. -/
def wordSearch (word text : Str) : Bool :=
  wordSearchAux word none text

/-- Embedding of `find_items_in_text`: all vocabulary entries that occur in
the lower-cased text as whole-word matches, in vocabulary order. -/
def find_items_in_text (text : Str) (vocab : List Str) : List Str :=
  let text_lower := pyLower text
  vocab.filter (fun word => wordSearch word text_lower)

/-- Case-insensitive literal match: consume `lit` from the front of `s`,
returning the consumed original characters and the remaining text. -/
def ciTake (lit : Str) (s : Str) : Option (Str × Str) :=
  match lit, s with
  | [], rest => some ([], rest)
  | _ :: _, [] => none
  | l :: ls, c :: cs =>
    if c.toLower = l.toLower then
      (ciTake ls cs).map (fun p => (c :: p.1, p.2))
    else none

/-- Greedy optional `s?` (case-insensitive) after a matched alternative:
extend the consumed text by one more character when it is an `s`. -/
def optS (consumed : Str) (rest : Str) : Str :=
  match rest with
  | c :: _ => if c.toLower = 's' then consumed ++ [c] else consumed
  | [] => consumed

/-- The alternation `(minutes?|mins?|hours?|hrs?)` of the duration pattern,
tried left to right as the regex engine does. -/
def timeUnitAlt (r : Str) : Option Str :=
  ((ciTake ("minute").toList r).map (fun p => optS p.1 p.2)).orElse (fun _ =>
  ((ciTake ("min").toList r).map (fun p => optS p.1 p.2)).orElse (fun _ =>
  ((ciTake ("hour").toList r).map (fun p => optS p.1 p.2)).orElse (fun _ =>
  ((ciTake ("hr").toList r).map (fun p => optS p.1 p.2)))))

/-- Match of the duration pattern `(\d+)\s*(minutes?|mins?|hours?|hrs?)`
(with `re.I`) anchored at the start of `s`, returning the matched text.
The greedy `\d+` and `\s*` never need backtracking here: a shorter digit or
space run would leave a digit or space where only a unit word may start. -/
def timeMatchAt (s : Str) : Option Str :=
  let ds := s.takeWhile Char.isDigit
  let r1 := s.dropWhile Char.isDigit
  if ds.isEmpty then none
  else
    let ws := r1.takeWhile pyIsSpace
    let r2 := r1.dropWhile pyIsSpace
    (timeUnitAlt r2).map (fun u => ds ++ ws ++ u)

/-- Match of the temperature pattern `(\d+)\s*(degrees\s*)?(F|C)` (with
`re.I`) anchored at the start of `s`, returning the matched text. The
optional group is tried greedily first; if `degrees` matches but no `F`/`C`
follows, the engine backtracks to skipping the group, which then fails on the
letter `d` — so the skip branch is only reachable when `degrees` is absent. -/
def tempMatchAt (s : Str) : Option Str :=
  let ds := s.takeWhile Char.isDigit
  let r1 := s.dropWhile Char.isDigit
  if ds.isEmpty then none
  else
    let ws := r1.takeWhile pyIsSpace
    let r2 := r1.dropWhile pyIsSpace
    let withDegrees : Option Str :=
      match ciTake ("degrees").toList r2 with
      | some p =>
        let ws2 := p.2.takeWhile pyIsSpace
        let r4 := p.2.dropWhile pyIsSpace
        match r4 with
        | c :: _ =>
          if c.toLower = 'f' || c.toLower = 'c' then
            some (ds ++ ws ++ p.1 ++ ws2 ++ [c])
          else none
        | [] => none
      | none => none
    match withDegrees with
    | some m => some m
    | none =>
      match r2 with
      | c :: _ =>
        if c.toLower = 'f' || c.toLower = 'c' then some (ds ++ ws ++ [c])
        else none
      | [] => none

/-- Scan of `re.search`: try the anchored matcher at every position, left to
right, returning the first match. -/
def reSearch (m : Str → Option Str) : Str → Option Str
  | [] => m []
  | c :: cs =>
    match m (c :: cs) with
    | some r => some r
    | none => reSearch m cs

/-- Embedding of `extract_time`; `some v` models `{"duration": v}` and `none`
models the empty dict. -/
def extract_time (text : Str) : Option Str :=
  reSearch timeMatchAt text

/-- Embedding of `extract_temperature`; `some v` models `{"oven": v}` and
`none` models the empty dict. -/
def extract_temperature (text : Str) : Option Str :=
  reSearch tempMatchAt text

/-- Embedding of the `Step` dataclass. The one-key `Dict` fields `time`,
`temperature`, `modifiers` and `context` are embedded as `Option Str`. -/
structure Step where
  step_number : ℕ
  description : Str
  ingredients : List Str
  tools : List Str
  methods : List Str
  time : Option Str
  temperature : Option Str
  action : Option Str
  objects : List Str
  modifiers : Option Str
  context : Option Str
deriving DecidableEq, Repr, Inhabited

/-- First-occurrence deduplication, as `list(dict.fromkeys(...))` does:
`seen` holds the keys already emitted. -/
def dedupFirstGo {α : Type} [DecidableEq α] (seen : List α) : List α → List α
  | [] => []
  | x :: xs =>
    if x ∈ seen then dedupFirstGo seen xs
    else x :: dedupFirstGo (x :: seen) xs

/-- Model of `list(dict.fromkeys(l))`: drop duplicates, keeping the first
occurrence of each element. -/
def dedupFirst {α : Type} [DecidableEq α] (l : List α) : List α :=
  dedupFirstGo [] l

/-- Model of the Python truthiness test `if current_oven_temp:` on an
`Optional[str]`: the carried value passes when it is neither `None` nor the
empty string. -/
def ctxOf : Option Str → Option Str
  | some v => if v = [] then none else some v
  | none => none

/-- The state update for `current_oven_temp`: an extracted `"oven"` value
overwrites it, otherwise it is kept. -/
def tempUpd (cur : Option Str) (text : Str) : Option Str :=
  match extract_temperature text with
  | some v => some v
  | none => cur

/-- Body of the inner loop of `build_steps` for one atomic clause: build the
`Step` for `text` with step number `k`, and return the updated
`current_oven_temp`. -/
def processClause (names : List Str) (cur : Option Str) (k : ℕ) (text : Str) :
    Step × Option Str :=
  let tools := find_items_in_text text TOOLS
  let methods :=
    dedupFirst (find_items_in_text text PRIMARY_METHODS ++ find_items_in_text text OTHER_METHODS)
  let time_info := extract_time text
  let temp_info := extract_temperature text
  let cur2 := tempUpd cur text
  let text_lower := pyLower text
  let used := names.filter (fun n => !n.isEmpty && wordSearch n text_lower)
  (⟨k, text, used, tools, methods, time_info, temp_info, methods.head?, used,
    (if tools.isEmpty then none else some (pyJoin (", ").toList tools)),
    ctxOf cur2⟩,
   cur2)

/-- The inner `for text in atomic_texts:` loop of `build_steps`: process the
clauses in order, threading `current_oven_temp` and `step_counter`; returns
the emitted steps together with the final state. -/
def buildClausesSt (names : List Str) (cur : Option Str) (k : ℕ) :
    List Str → List Step × Option Str × ℕ
  | [] => ([], cur, k)
  | text :: rest =>
    let pr := processClause names cur k text
    let r := buildClausesSt names pr.2 (k + 1) rest
    (pr.1 :: r.1, r.2)

/-- The outer `for raw_step in steps_raw:` loop of `build_steps`. -/
def buildStepsGo (names : List Str) (cur : Option Str) (k : ℕ) :
    List Str → List Step
  | [] => []
  | raw :: rest =>
    let pr := buildClausesSt names cur k (split_into_atomic_steps raw)
    pr.1 ++ buildStepsGo names pr.2.1 pr.2.2 rest

/-- Embedding of `build_steps`: lower-case the parsed ingredient names, then
run the nested loops with `current_oven_temp = None` and `step_counter = 1`. -/
def build_steps (steps_raw : List Str) (ingredients : List Ingredient) :
    List Step :=
  buildStepsGo (ingredients.map (fun i => pyLower i.name)) none 1 steps_raw

/-- Lexicographic order on the character-list model of strings, as Python
compares strings (by code point); used to model `sorted`. -/
def strLe (a b : Str) : Prop :=
  a ≤ b

instance : DecidableRel strLe := fun a b =>
  inferInstanceAs (Decidable (a ≤ b))

/-- Embedding of `collect_recipe_tools_and_methods`: union the per-step tools
and methods (`set.update` over the steps in order is the union of the
concatenation) and return each as a sorted deduplicated list, as Python
`sorted(set)` does. -/
def collect_recipe_tools_and_methods (steps : List Step) :
    List Str × List Str :=
  (List.insertionSort strLe (steps.flatMap Step.tools).dedup,
   List.insertionSort strLe (steps.flatMap Step.methods).dedup)

/-- Model of a dynamically typed entry of an upstream input list: the string
case, and the non-string case (the `int` entries used as counterexamples). -/
inductive PyVal where
  | pystr (s : Str)
  | pyint (n : ℤ)
deriving DecidableEq, Repr

/-- Models CPython running `parse_ingredient_line` on a dynamically typed
entry: a non-string raises `AttributeError` at `line.strip()` before any
field is parsed; the error names no position. -/
def parse_ingredient_line_dyn : PyVal → Except PyErr Ingredient
  | .pystr s => parse_ingredient_line s
  | .pyint _ => .error .attributeError

/-- Models CPython running `parse_ingredients` on a dynamically typed list:
the comprehension evaluates entries in order and the first exception aborts
the call. -/
def parse_ingredients_dyn : List PyVal → Except PyErr (List Ingredient)
  | [] => .ok []
  | v :: vs =>
    match parse_ingredient_line_dyn v with
    | .error e => .error e
    | .ok i =>
      match parse_ingredients_dyn vs with
      | .error e => .error e
      | .ok rest => .ok (i :: rest)

/-- Models CPython running `split_into_atomic_steps` on a dynamically typed
entry: `re.split` raises `TypeError` on a non-string; the error names no
position. -/
def split_into_atomic_steps_dyn : PyVal → Except PyErr (List Str)
  | .pystr s => .ok (split_into_atomic_steps s)
  | .pyint _ => .error .typeError

/-- Models CPython running the loops of `build_steps` on a dynamically typed
instruction list: entries are processed in order and the first `TypeError`
aborts the call. -/
def buildStepsGoDyn (names : List Str) (cur : Option Str) (k : ℕ) :
    List PyVal → Except PyErr (List Step)
  | [] => .ok []
  | v :: rest =>
    match split_into_atomic_steps_dyn v with
    | .error e => .error e
    | .ok cs =>
      let pr := buildClausesSt names cur k cs
      match buildStepsGoDyn names pr.2.1 pr.2.2 rest with
      | .error e => .error e
      | .ok more => .ok (pr.1 ++ more)

/-- Models CPython running `build_steps` on a dynamically typed instruction
list. -/
def build_steps_dyn (steps_raw : List PyVal) (ingredients : List Ingredient) :
    Except PyErr (List Step) :=
  buildStepsGoDyn (ingredients.map (fun i => pyLower i.name)) none 1 steps_raw

/-- Membership in a stripped string implies membership in the original. -/
lemma mem_of_mem_pyStrip {c : Char} {s : Str} (h : c ∈ pyStrip s) : c ∈ s := by
  unfold pyStrip at h
  rw [List.mem_reverse] at h
  have h2 := ((List.dropWhile_sublist _).mem h)
  rw [List.mem_reverse] at h2
  exact (List.dropWhile_sublist _).mem h2

/-- The head of a `dropWhile` result fails the predicate. -/
lemma dropWhile_head?_false {p : Char → Bool} {l : Str} {c : Char}
    (h : (l.dropWhile p).head? = some c) : p c = false := by
  induction l with
  | nil => simp [List.dropWhile] at h
  | cons a l ih =>
    rw [List.dropWhile_cons] at h
    by_cases hp : p a
    · rw [if_pos hp] at h; exact ih h
    · rw [if_neg hp] at h
      simp at h
      subst h
      simpa using hp

/-- A list whose head fails the predicate is unchanged by `dropWhile`. -/
lemma dropWhile_eq_self_of_head {p : Char → Bool} {l : Str}
    (h : ∀ c, l.head? = some c → p c = false) : l.dropWhile p = l := by
  cases l with
  | nil => rfl
  | cons a l => rw [List.dropWhile_cons, if_neg]; simp [h a rfl]

/-- Stripping is idempotent. -/
lemma pyStrip_idem (s : Str) : pyStrip (pyStrip s) = pyStrip s := by
  set p := pyIsSpace
  set A := s.dropWhile p with hA
  set B := A.reverse.dropWhile p with hB
  have hstrip : pyStrip s = B.reverse := rfl
  have hBrevpre : B.reverse.IsPrefix A := by
    have hsuf : B.IsSuffix A.reverse := List.dropWhile_suffix p
    have := List.reverse_prefix.mpr hsuf
    rwa [List.reverse_reverse] at this
  have hBrevhead : ∀ c, B.reverse.head? = some c → p c = false := by
    intro c hc
    obtain ⟨t, ht⟩ := hBrevpre
    apply dropWhile_head?_false (p := p) (l := s)
    rw [← hA, ← ht]
    cases hBr : B.reverse with
    | nil => rw [hBr] at hc; simp at hc
    | cons b bs => rw [hBr] at hc; simp at hc; simp [hc]
  have step1 : B.reverse.dropWhile p = B.reverse := dropWhile_eq_self_of_head hBrevhead
  have step2 : B.dropWhile p = B := by
    apply dropWhile_eq_self_of_head
    intro c hc
    exact dropWhile_head?_false (p := p) (l := A.reverse) (by rw [← hB]; exact hc)
  rw [hstrip]
  unfold pyStrip
  rw [step1, List.reverse_reverse, step2]

/-- A nonempty stripped string cannot begin with a character outside the
original string. -/
lemma pyStrip_head?_ne {c : Char} {s : Str} (h : c ∉ s) :
    (pyStrip s).head? ≠ some c := by
  intro hc
  exact h (mem_of_mem_pyStrip (List.mem_of_mem_head? hc))

/-- `pySplitOn` never returns the empty list of parts. -/
lemma pySplitOn_ne_nil (sep : Char) (s : Str) : pySplitOn sep s ≠ [] := by
  cases s with
  | nil => simp [pySplitOn]
  | cons c cs =>
    unfold pySplitOn
    by_cases h : c = sep
    · simp [h]
    · rw [if_neg h]
      cases pySplitOn sep cs <;> simp

/-- No part produced by `pySplitOn` contains the separator. -/
lemma pySplitOn_sep_not_mem {sep : Char} {s : Str} {part : Str}
    (h : part ∈ pySplitOn sep s) : sep ∉ part := by
  induction s generalizing part with
  | nil => simp [pySplitOn] at h; simp [h]
  | cons c cs ih =>
    unfold pySplitOn at h
    by_cases hc : c = sep
    · rw [if_pos hc] at h
      rw [List.mem_cons] at h
      rcases h with h | h
      · simp [h]
      · exact ih h
    · rw [if_neg hc] at h
      rcases hsplit : pySplitOn sep cs with _ | ⟨p, ps⟩
      · exact absurd hsplit (pySplitOn_ne_nil sep cs)
      · rw [hsplit, List.mem_cons] at h
        rcases h with h | h
        · intro hm
          rw [h, List.mem_cons] at hm
          rcases hm with hm | hm
          · exact hc hm.symm
          · exact ih (by rw [hsplit]; exact List.mem_cons_self p ps) hm
        · exact ih (by rw [hsplit]; exact List.mem_cons_of_mem p h)

/-- Every character of a part produced by `pySplitOn` occurs in the split
string. -/
lemma pySplitOn_subset {sep : Char} {s : Str} {part : Str}
    (h : part ∈ pySplitOn sep s) : ∀ c ∈ part, c ∈ s := by
  induction s generalizing part with
  | nil =>
    simp [pySplitOn] at h
    simp [h]
  | cons c cs ih =>
    intro x hx
    unfold pySplitOn at h
    by_cases hc : c = sep
    · rw [if_pos hc] at h
      rw [List.mem_cons] at h
      rcases h with h | h
      · rw [h] at hx; simp at hx
      · exact List.mem_cons_of_mem c (ih h x hx)
    · rw [if_neg hc] at h
      rcases hsplit : pySplitOn sep cs with _ | ⟨p, ps⟩
      · exact absurd hsplit (pySplitOn_ne_nil sep cs)
      · rw [hsplit, List.mem_cons] at h
        rcases h with h | h
        · rw [h, List.mem_cons] at hx
          rcases hx with hx | hx
          · simp [hx]
          · exact List.mem_cons_of_mem c
              (ih (by rw [hsplit]; exact List.mem_cons_self p ps) x hx)
        · exact List.mem_cons_of_mem c
            (ih (by rw [hsplit]; exact List.mem_cons_of_mem p h) x hx)

/-- A parsed mantissa is non-negative. -/
lemma pyFloatMantissa_nonneg {s : Str} {q : ℚ} (h : pyFloatMantissa s = some q) :
    0 ≤ q := by
  unfold pyFloatMantissa at h
  dsimp only at h
  split at h
  · split at h
    · exact absurd h (by simp)
    · simp at h
      rw [← h]
      positivity
  · split at h
    · split at h
      · exact absurd h (by simp)
      · simp at h
        rw [← h]
        positivity
    · exact absurd h (by simp)
  · exact absurd h (by simp)

/-- A parsed float whose stripped text does not begin with a minus sign is
non-negative. -/
lemma pyFloat_nonneg {s : Str} {q : ℚ}
    (hd : (pyStrip s).head? ≠ some '-') (h : pyFloat s = some q) : 0 ≤ q := by
  unfold pyFloat at h
  split at h
  · exact pyFloatMantissa_nonneg h
  · rename_i r heq
    exact absurd (by rw [heq]; rfl) hd
  · exact pyFloatMantissa_nonneg h

/-- The first two branches of the quantity parser return a non-negative value
whenever the token contains no minus sign. -/
lemma parse_quantity_simple_nonneg {t : Str} {q : ℚ} (hd : ('-') ∉ t)
    (h : parse_quantity_simple t = .ok (some q)) : 0 ≤ q := by
  have hd' : ('-') ∉ pyStrip t := fun hm => hd (mem_of_mem_pyStrip hm)
  unfold parse_quantity_simple at h
  dsimp only at h
  split at h
  · rename_i q' hf
    have hq : q' = q := by injection h with h2; injection h2
    rw [← hq]
    exact pyFloat_nonneg (pyStrip_head?_ne hd') hf
  · split at h
    · split at h
      · rename_i num den hsplit
        split at h
        · rename_i n d hfn hfd
          split at h
          · exact absurd h (by simp)
          · have hq : n / d = q := by injection h with h2; injection h2
            rw [← hq]
            have hnum : num ∈ pySplitOn '/' (pyStrip t) := by
              rw [hsplit]; exact List.mem_cons_self _ _
            have hden : den ∈ pySplitOn '/' (pyStrip t) := by
              rw [hsplit]; exact List.mem_cons_of_mem _ (List.mem_cons_self _ _)
            have hn : (0 : ℚ) ≤ n := by
              refine pyFloat_nonneg (pyStrip_head?_ne ?_) hfn
              intro hm
              exact hd' (pySplitOn_subset hnum _ hm)
            have hdq : (0 : ℚ) ≤ d := by
              refine pyFloat_nonneg (pyStrip_head?_ne ?_) hfd
              intro hm
              exact hd' (pySplitOn_subset hden _ hm)
            exact div_nonneg hn hdq
        · exact absurd h (by simp)
      · exact absurd h (by simp)
    · exact absurd h (by simp)

/-- The mixed-fraction branch of the quantity parser is always non-negative:
both halves of the split contain no minus sign. -/
lemma parse_quantity_mixed_nonneg {s : Str} {q : ℚ}
    (h : parse_quantity_mixed s = .ok (some q)) : 0 ≤ q := by
  unfold parse_quantity_mixed at h
  dsimp only at h
  split at h
  · split at h
    · rename_i baseStr fracStr hsplit
      split at h
      · exact absurd h (by simp)
      · rename_i f hf
        have hq : (pyFloat baseStr).getD 0 + f = q := by
          injection h with h2; injection h2
        rw [← hq]
        have hbase : (0 : ℚ) ≤ (pyFloat baseStr).getD 0 := by
          cases hfb : pyFloat baseStr with
          | none => simp
          | some b =>
            simp only [Option.getD_some]
            refine pyFloat_nonneg (pyStrip_head?_ne ?_) hfb
            intro hm
            exact pySplitOn_sep_not_mem
              (by rw [hsplit]; exact List.mem_cons_self _ _) hm
        have hfrac : (0 : ℚ) ≤ f := by
          refine parse_quantity_simple_nonneg ?_ hf
          exact pySplitOn_sep_not_mem
            (by rw [hsplit]; exact List.mem_cons_of_mem _ (List.mem_cons_self _ _))
        exact add_nonneg hbase hfrac
      · exact absurd h (by simp)
    · exact absurd h (by simp)
  · exact absurd h (by simp)

/-- The quantity parser returns a non-negative value whenever the stripped
token does not begin with a minus sign. -/
lemma parse_quantity_nonneg {t : Str} {q : ℚ}
    (hd : (pyStrip t).head? ≠ some '-')
    (h : parse_quantity t = .ok (some q)) : 0 ≤ q := by
  unfold parse_quantity at h
  dsimp only at h
  split at h
  · rename_i q' hf
    have hq : q' = q := by injection h with h2; injection h2
    rw [← hq]
    refine pyFloat_nonneg ?_ hf
    rwa [pyStrip_idem]
  · split at h
    · rename_i hcond
      split at h
      · rename_i num den hsplit
        split at h
        · rename_i n d hfn hfd
          split at h
          · exact absurd h (by simp)
          · have hq : n / d = q := by injection h with h2; injection h2
            rw [← hq]
            have hnum : num ∈ pySplitOn '/' (pyStrip t) := by
              rw [hsplit]; exact List.mem_cons_self _ _
            have hden : den ∈ pySplitOn '/' (pyStrip t) := by
              rw [hsplit]; exact List.mem_cons_of_mem _ (List.mem_cons_self _ _)
            have hn : (0 : ℚ) ≤ n := by
              refine pyFloat_nonneg (pyStrip_head?_ne ?_) hfn
              intro hm
              exact hcond.2 (pySplitOn_subset hnum _ hm)
            have hdq : (0 : ℚ) ≤ d := by
              refine pyFloat_nonneg (pyStrip_head?_ne ?_) hfd
              intro hm
              exact hcond.2 (pySplitOn_subset hden _ hm)
            exact div_nonneg hn hdq
        · exact absurd h (by simp)
      · exact parse_quantity_mixed_nonneg h
    · exact parse_quantity_mixed_nonneg h

/-- On a token without a minus sign the full quantity parser coincides with
its two-branch restriction: the justification for embedding the source's
recursive call (whose argument never contains a minus sign) as
`parse_quantity_simple`. -/
lemma parse_quantity_eq_simple_of_no_dash {t : Str} (hd : ('-') ∉ t) :
    parse_quantity t = parse_quantity_simple t := by
  have hd' : ('-') ∉ pyStrip t := fun hm => hd (mem_of_mem_pyStrip hm)
  have hmix : parse_quantity_mixed (pyStrip t) = .ok none := by
    unfold parse_quantity_mixed
    rw [if_neg]
    simpa using hd'
  unfold parse_quantity parse_quantity_simple
  dsimp only
  rw [hmix]

/-- Character alphabet of the restricted quantity tokens in the amended claim
C5: digits, decimal point, slash, hyphen and whitespace. On tokens over this
alphabet the modelled float grammar coincides with Python's `float` (no `inf`,
`nan`, exponent or underscore forms are spellable). -/
def quantityTokenChar (c : Char) : Bool :=
  c.isDigit || c = '.' || c = '/' || c = '-' || pyIsSpace c

/-- C1: for the token `"1/0"` the quantity parser hits the division
`float("1") / float("0")`, and since only `ValueError` is caught, the
`ZeroDivisionError` escapes as a fatal error instead of the claimed
"not parseable" result. -/
theorem quantity_div_zero_raises :
    parse_quantity ("1/0").toList = .error PyErr.zeroDivisionError := rfl

/-- C6: the documented quantity-parser values: `"1"` to 1.0, `"1/2"` to 0.5,
`"1-1/2"` to 1.5, `"abc"` to absent, and the lenient mixed-number fallback
`"x-1/2"` to 0.5. -/
theorem quantity_parser_values :
    parse_quantity ("1").toList = .ok (some 1)
    ∧ parse_quantity ("1/2").toList = .ok (some (1 / 2))
    ∧ parse_quantity ("1-1/2").toList = .ok (some (3 / 2))
    ∧ parse_quantity ("abc").toList = .ok none
    ∧ parse_quantity ("x-1/2").toList = .ok (some (1 / 2)) := by
  refine ⟨rfl, rfl, ?_, rfl, ?_⟩
  · have h : parse_quantity ("1-1/2").toList = Except.ok (some ((1 : ℚ) + 1 / 2)) := rfl
    rw [h]
    norm_num
  · have h : parse_quantity ("x-1/2").toList = Except.ok (some ((0 : ℚ) + 1 / 2)) := rfl
    rw [h]
    norm_num

/-- C7: the two documented ingredient-parser examples hold, but the claimed
"never raises for malformed input" fails: a line whose first token is a
zero-denominator fraction propagates the quantity parser's uncaught
`ZeroDivisionError`. -/
theorem ingredient_line_examples_and_raise :
    parse_ingredient_line ("2 cups flour, sifted").toList
      = .ok ⟨("2 cups flour, sifted").toList, ("flour").toList, some 2,
             some (("cups").toList), none, some (("sifted").toList)⟩
    ∧ parse_ingredient_line ("1 large egg").toList
      = .ok ⟨("1 large egg").toList, ("egg").toList, some 1, none,
             some (("large").toList), none⟩
    ∧ parse_ingredient_line ("1/0 cups sugar").toList = .error PyErr.zeroDivisionError :=
  ⟨rfl, rfl, rfl⟩

/-- C2 (counterexample): a structurally valid all-string ingredient list can
still raise — `parse_ingredients(["1/0"])` propagates `ZeroDivisionError` —
refuting the claim that the engine raises only for contract-level
malformation. -/
theorem content_level_raise_cex :
    parse_ingredients [("1/0").toList] = .error PyErr.zeroDivisionError := rfl

/-- C2 (amended): a non-string entry makes the engine raise an unhandled
`TypeError` (instructions) or `AttributeError` (ingredient lines) at the
first offending entry — it is not coerced or skipped — but the error carries
no position information (the `PyErr` constructors are nullary), and the
engine can equally raise for content-level string input (a zero-denominator
fraction quantity). -/
theorem malformed_input_behavior :
    build_steps_dyn [PyVal.pyint 42] [] = .error PyErr.typeError
    ∧ build_steps_dyn [PyVal.pystr ("Mix flour.").toList, PyVal.pyint 0] []
        = .error PyErr.typeError
    ∧ parse_ingredients_dyn [PyVal.pyint 1] = .error PyErr.attributeError
    ∧ parse_ingredients_dyn [PyVal.pystr ("1/0").toList]
        = .error PyErr.zeroDivisionError :=
  ⟨rfl, rfl, rfl, rfl⟩

/-- C5 (counterexample): the quantity parser can succeed with a negative
value — the token `"-1"` direct-parses to -1.0 — refuting the claim that
every successful parse is non-negative. -/
theorem quantity_negative_cex :
    parse_quantity ("-1").toList = .ok (some (-1)) ∧ (-1 : ℚ) < 0 :=
  ⟨rfl, by norm_num⟩

/-- C5 (amended): restricted to tokens over digits, `.`, `/`, `-` and
whitespace whose stripped form does not begin with `-`, a successful quantity
parse is non-negative; consequently an `Ingredient` parsed from a line whose
first whitespace token satisfies the same restriction has a non-negative
quantity whenever one is present. -/
theorem quantity_nonneg_restricted :
    (∀ token : Str, (∀ c ∈ token, quantityTokenChar c = true) →
      (pyStrip token).head? ≠ some '-' →
      ∀ q : ℚ, parse_quantity token = .ok (some q) → 0 ≤ q)
    ∧ (∀ (line t0 : Str) (ing : Ingredient) (q : ℚ),
        (pySplitWs (pyStrip line)).head? = some t0 →
        (∀ c ∈ t0, quantityTokenChar c = true) →
        (pyStrip t0).head? ≠ some '-' →
        parse_ingredient_line line = .ok ing →
        ing.quantity = some q → 0 ≤ q) := by
  constructor
  · intro token _ hd q h
    exact parse_quantity_nonneg hd h
  · intro line t0 ing q hhead _ hd hok hq
    unfold parse_ingredient_line at hok
    dsimp only at hok
    rcases htoks : pySplitWs (pyStrip line) with _ | ⟨t0', rest⟩
    · rw [htoks] at hhead
      simp at hhead
    · rw [htoks] at hhead
      simp at hhead
      subst hhead
      rw [htoks] at hok
      dsimp only at hok
      cases hpq : parse_quantity t0' with
      | error e =>
        rw [hpq] at hok
        dsimp only at hok
        exact absurd hok (by simp)
      | ok o =>
        cases o with
        | some q' =>
          rw [hpq] at hok
          dsimp only at hok
          cases hok
          simp at hq
          rw [← hq]
          exact parse_quantity_nonneg hd hpq
        | none =>
          rw [hpq] at hok
          dsimp only at hok
          cases hok
          simp at hq

/-- Witness for C5 (amended): the hypotheses hold at the concrete token
`"3/4"` and the concrete line `"2 cups flour"`, and the theorem yields the
non-negativity of the parsed values. -/
theorem quantity_nonneg_restricted_example :
    (∀ c ∈ ("3/4").toList, quantityTokenChar c = true)
    ∧ (pyStrip ("3/4").toList).head? ≠ some '-'
    ∧ parse_quantity ("3/4").toList = .ok (some (3 / 4))
    ∧ 0 ≤ (3 / 4 : ℚ)
    ∧ (pySplitWs (pyStrip ("2 cups flour").toList)).head? = some (("2").toList)
    ∧ parse_ingredient_line ("2 cups flour").toList
        = .ok ⟨("2 cups flour").toList, ("flour").toList, some 2,
               some (("cups").toList), none, none⟩
    ∧ 0 ≤ (2 : ℚ) :=
  ⟨by decide, by decide, rfl,
   quantity_nonneg_restricted.1 (("3/4").toList) (by decide) (by decide) (3 / 4) rfl,
   by decide, rfl,
   quantity_nonneg_restricted.2 (("2 cups flour").toList) (("2").toList)
     ⟨("2 cups flour").toList, ("flour").toList, some 2,
      some (("cups").toList), none, none⟩ 2
     (by decide) (by decide) (by decide) rfl rfl⟩

/-- The clause loop emits one step per clause. -/
lemma bcs_length (n : List Str) : ∀ (cs : List Str) (cur : Option Str) (k : ℕ),
    (buildClausesSt n cur k cs).1.length = cs.length := by
  intro cs
  induction cs with
  | nil => intro cur k; rfl
  | cons c cs ih =>
    intro cur k
    simp only [buildClausesSt, List.length_cons]
    rw [ih]

/-- Splitting the clause list splits the emitted steps, threading the state. -/
lemma bcs_append (n : List Str) : ∀ (cs ds : List Str) (cur : Option Str) (k : ℕ),
    buildClausesSt n cur k (cs ++ ds)
      = ((buildClausesSt n cur k cs).1
           ++ (buildClausesSt n (buildClausesSt n cur k cs).2.1
                (buildClausesSt n cur k cs).2.2 ds).1,
         (buildClausesSt n (buildClausesSt n cur k cs).2.1
            (buildClausesSt n cur k cs).2.2 ds).2) := by
  intro cs
  induction cs with
  | nil => intro ds cur k; simp [buildClausesSt]
  | cons c cs ih =>
    intro ds cur k
    simp only [List.cons_append, buildClausesSt, List.append_eq]
    rw [ih]

/-- The nested loops of `build_steps` traverse exactly the concatenation of
the per-instruction clause lists, with one running state. -/
lemma buildStepsGo_eq_flat (n : List Str) :
    ∀ (sr : List Str) (cur : Option Str) (k : ℕ),
    buildStepsGo n cur k sr
      = (buildClausesSt n cur k (sr.flatMap split_into_atomic_steps)).1 := by
  intro sr
  induction sr with
  | nil => intro cur k; rfl
  | cons raw rest ih =>
    intro cur k
    simp only [buildStepsGo, List.flatMap_cons]
    rw [bcs_append, ih]

/-- Step numbers in the clause loop are consecutive, starting at the counter. -/
lemma bcs_map_step_number (n : List Str) :
    ∀ (cs : List Str) (cur : Option Str) (k : ℕ),
    (buildClausesSt n cur k cs).1.map Step.step_number
      = List.range' k cs.length := by
  intro cs
  induction cs with
  | nil => intro cur k; rfl
  | cons c cs ih =>
    intro cur k
    simp only [buildClausesSt, List.map_cons, List.length_cons, List.range'_succ]
    rw [ih]
    rfl

/-- Step descriptions in the clause loop are exactly the clauses. -/
lemma bcs_map_description (n : List Str) :
    ∀ (cs : List Str) (cur : Option Str) (k : ℕ),
    (buildClausesSt n cur k cs).1.map Step.description = cs := by
  intro cs
  induction cs with
  | nil => intro cur k; rfl
  | cons c cs ih =>
    intro cur k
    simp only [buildClausesSt, List.map_cons]
    rw [ih]
    rfl

/-- Taking a prefix of the emitted steps is running the loop on the prefix of
the clauses. -/
lemma bcs_take (n : List Str) :
    ∀ (cs : List Str) (cur : Option Str) (k m : ℕ),
    (buildClausesSt n cur k cs).1.take m
      = (buildClausesSt n cur k (cs.take m)).1 := by
  intro cs
  induction cs with
  | nil => intro cur k m; simp [buildClausesSt]
  | cons c cs ih =>
    intro cur k m
    cases m with
    | zero => rfl
    | succ m =>
      simp only [buildClausesSt, List.take_succ_cons]
      rw [ih]

/-- The per-step `temperature` fields are the per-clause extraction results. -/
lemma bcs_filterMap_temperature (n : List Str) :
    ∀ (cs : List Str) (cur : Option Str) (k : ℕ),
    (buildClausesSt n cur k cs).1.filterMap Step.temperature
      = cs.filterMap extract_temperature := by
  intro cs
  induction cs with
  | nil => intro cur k; rfl
  | cons c cs ih =>
    intro cur k
    simp only [buildClausesSt, List.filterMap_cons]
    rw [ih]
    rfl

/-- The context field of the i-th emitted step is the truthiness-filtered
value of the carried temperature after the first i+1 clauses. -/
lemma bcs_context (n : List Str) :
    ∀ (cs : List Str) (cur : Option Str) (k i : ℕ)
      (h : i < (buildClausesSt n cur k cs).1.length),
    ((buildClausesSt n cur k cs).1.get ⟨i, h⟩).context
      = ctxOf ((cs.take (i + 1)).foldl tempUpd cur) := by
  intro cs
  induction cs with
  | nil =>
    intro cur k i h
    simp [buildClausesSt] at h
  | cons c cs ih =>
    intro cur k i h
    cases i with
    | zero => rfl
    | succ i =>
      have h2 := h
      simp only [buildClausesSt, List.length_cons] at h2
      have h' : i < (buildClausesSt n (processClause n cur k c).2 (k + 1) cs).1.length := by
        omega
      have hget : ((buildClausesSt n cur k (c :: cs)).1.get ⟨i + 1, h⟩)
          = ((buildClausesSt n (processClause n cur k c).2 (k + 1) cs).1.get ⟨i, h'⟩) := rfl
      rw [hget, ih]
      simp only [List.take_succ_cons, List.foldl_cons]
      rfl

/-- `getLast?` of a cons, expressed with `Option.or`. -/
lemma getLast?_cons_or {α : Type} (a : α) (l : List α) :
    (a :: l).getLast? = l.getLast?.or (some a) := by
  induction l generalizing a with
  | nil => rfl
  | cons b bs ih =>
    rw [List.getLast?_cons_cons, ih b]
    cases hb : bs.getLast? <;> simp [Option.or]

/-- The element produced by `getLast?` is a member of the list. -/
lemma mem_of_getLast?_eq {α : Type} {l : List α} {v : α}
    (h : l.getLast? = some v) : v ∈ l := by
  induction l with
  | nil => simp at h
  | cons a l ih =>
    rw [getLast?_cons_or] at h
    cases hl : l.getLast? with
    | none => rw [hl] at h; simp [Option.or] at h; simp [h]
    | some w =>
      rw [hl] at h
      simp [Option.or] at h
      rw [h] at hl
      exact List.mem_cons_of_mem a (ih hl)

/-- Folding the temperature update is keeping the last extracted value, with
the initial state as the fallback. -/
lemma foldl_tempUpd_or : ∀ (cs : List Str) (t : Option Str),
    cs.foldl tempUpd t = ((cs.filterMap extract_temperature).getLast?).or t := by
  intro cs
  induction cs with
  | nil => intro t; rfl
  | cons c cs ih =>
    intro t
    rw [List.foldl_cons, ih]
    rw [List.filterMap_cons]
    cases hc : extract_temperature c with
    | none =>
      have : tempUpd t c = t := by unfold tempUpd; rw [hc]
      rw [this]
    | some v =>
      have : tempUpd t c = some v := by unfold tempUpd; rw [hc]
      rw [this, getLast?_cons_or]
      cases hl : (cs.filterMap extract_temperature).getLast? <;> simp [Option.or]

/-- A successful position-anchored match comes from some position. -/
lemma reSearch_some {f : Str → Option Str} :
    ∀ {s m : Str}, reSearch f s = some m → ∃ u : Str, f u = some m := by
  intro s
  induction s with
  | nil => intro m h; exact ⟨[], h⟩
  | cons c cs ih =>
    intro m h
    unfold reSearch at h
    split at h
    · rename_i r hr
      cases h
      exact ⟨c :: cs, hr⟩
    · exact ih h

/-- An anchored temperature match is nonempty: it begins with the matched
digit run. -/
lemma tempMatchAt_ne_nil {s m : Str} (h : tempMatchAt s = some m) : m ≠ [] := by
  unfold tempMatchAt at h
  dsimp only at h
  split at h
  · exact absurd h (by simp)
  · split at h
    · rename_i m' hm
      cases h
      split at hm
      · split at hm
        · split at hm
          · cases hm
            simp
          · exact absurd hm (by simp)
        · exact absurd hm (by simp)
      · exact absurd hm (by simp)
    · split at h
      · split at h
        · cases h
          simp
        · exact absurd h (by simp)
      · exact absurd h (by simp)

/-- An extracted temperature string is never empty. -/
lemma extract_temperature_ne_nil {t m : Str}
    (h : extract_temperature t = some m) : m ≠ [] := by
  obtain ⟨u, hu⟩ := reSearch_some h
  exact tempMatchAt_ne_nil hu

/-- The context of the i-th step in the clause loop started with no carried
temperature is the last temperature extracted in steps 0..i. -/
lemma bcs_context_none (n : List Str) (cs : List Str) (k i : ℕ)
    (h : i < (buildClausesSt n none k cs).1.length) :
    ((buildClausesSt n none k cs).1.get ⟨i, h⟩).context
      = (((buildClausesSt n none k cs).1.take (i + 1)).filterMap
          Step.temperature).getLast? := by
  rw [bcs_context, foldl_tempUpd_or, Option.or_none, bcs_take,
    bcs_filterMap_temperature]
  cases hl : ((cs.take (i + 1)).filterMap extract_temperature).getLast? with
  | none => rfl
  | some v =>
    have hv : v ∈ (cs.take (i + 1)).filterMap extract_temperature :=
      mem_of_getLast?_eq hl
    rw [List.mem_filterMap] at hv
    obtain ⟨c, _, hc⟩ := hv
    have hne : v ≠ [] := extract_temperature_ne_nil hc
    simp only [ctxOf]
    rw [if_neg hne]

/-- C3: at every emitted step the `context` oven temperature is present
exactly when some step up to and including it extracted a temperature, and it
equals the most recently extracted one — the state carries forward across
instruction boundaries and is never reset. -/
theorem oven_context_most_recent (steps_raw : List Str)
    (ingredients : List Ingredient) (i : ℕ)
    (h : i < (build_steps steps_raw ingredients).length) :
    ((build_steps steps_raw ingredients).get ⟨i, h⟩).context
      = (((build_steps steps_raw ingredients).take (i + 1)).filterMap
          Step.temperature).getLast? := by
  have hflat : build_steps steps_raw ingredients
      = (buildClausesSt (ingredients.map (fun ing => pyLower ing.name)) none 1
          (steps_raw.flatMap split_into_atomic_steps)).1 := by
    unfold build_steps
    exact buildStepsGo_eq_flat _ _ _ _
  revert h
  rw [hflat]
  intro h
  exact bcs_context_none _ _ _ _ h

/-- Witness for C3: on the documented two-instruction recipe the second step
inherits the first step's extracted `"350 degrees F"`. -/
theorem oven_context_most_recent_example :
    ((build_steps [("Preheat oven to 350 degrees F.").toList,
        ("Bake the cake.").toList] []).get ⟨1, by decide⟩).context
      = some (("350 degrees F").toList) :=
  (oven_context_most_recent
    [("Preheat oven to 350 degrees F.").toList, ("Bake the cake.").toList]
    [] 1 (by decide)).trans (by decide)

/-- C4: the step builder emits exactly one step per non-empty trimmed clause,
with step numbers 1..N in order (no gaps, no repeats, no dropped clause). -/
theorem step_numbering_exact (steps_raw : List Str)
    (ingredients : List Ingredient) :
    (build_steps steps_raw ingredients).map Step.step_number
      = List.range' 1 (steps_raw.flatMap split_into_atomic_steps).length
    ∧ (build_steps steps_raw ingredients).map Step.description
      = steps_raw.flatMap split_into_atomic_steps := by
  unfold build_steps
  rw [buildStepsGo_eq_flat]
  exact ⟨bcs_map_step_number _ _ _ _, bcs_map_description _ _ _ _⟩

/-- Steps emitted by the clause loop never mention an empty ingredient name:
the scan `if name and re.search(...)` filters empty names out. -/
lemma bcs_no_empty_name (n : List Str) : ∀ (cs : List Str) (cur : Option Str)
    (k : ℕ) (s : Step), s ∈ (buildClausesSt n cur k cs).1 →
    ([] ∉ s.ingredients ∧ [] ∉ s.objects) := by
  intro cs
  induction cs with
  | nil =>
    intro cur k s hs
    simp [buildClausesSt] at hs
  | cons c cs ih =>
    intro cur k s hs
    simp only [buildClausesSt] at hs
    rw [List.mem_cons] at hs
    rcases hs with hs | hs
    · subst hs
      have hing : (processClause n cur k c).1.ingredients
          = n.filter (fun nm => !nm.isEmpty && wordSearch nm (pyLower c)) := rfl
      have hobj : (processClause n cur k c).1.objects
          = n.filter (fun nm => !nm.isEmpty && wordSearch nm (pyLower c)) := rfl
      constructor
      · intro hmem
        rw [hing] at hmem
        have := (List.mem_filter.mp hmem).2
        simp at this
      · intro hmem
        rw [hobj] at hmem
        have := (List.mem_filter.mp hmem).2
        simp at this
    · exact ih _ _ _ hs

/-- C10: no emitted step's `ingredients` or `objects` list contains the empty
string, however the recipe's ingredient list is parsed. -/
theorem no_empty_ingredient_mentions (steps_raw : List Str)
    (ingredients : List Ingredient) (s : Step)
    (hs : s ∈ build_steps steps_raw ingredients) :
    [] ∉ s.ingredients ∧ [] ∉ s.objects := by
  unfold build_steps at hs
  rw [buildStepsGo_eq_flat] at hs
  exact bcs_no_empty_name _ _ _ _ _ hs

/-- Witness for C10: a recipe whose only ingredient has an empty parsed name
still emits a step, and that step's mention lists avoid the empty string. -/
theorem no_empty_ingredient_mentions_example :
    ((build_steps [("mix").toList] [⟨[], [], none, none, none, none⟩]).getD 0 default)
        ∈ build_steps [("mix").toList] [⟨[], [], none, none, none, none⟩]
    ∧ [] ∉ ((build_steps [("mix").toList]
        [⟨[], [], none, none, none, none⟩]).getD 0 default).ingredients
    ∧ [] ∉ ((build_steps [("mix").toList]
        [⟨[], [], none, none, none, none⟩]).getD 0 default).objects := by
  have hmem : ((build_steps [("mix").toList]
      [⟨[], [], none, none, none, none⟩]).getD 0 default)
        ∈ build_steps [("mix").toList] [⟨[], [], none, none, none, none⟩] := by
    decide
  exact ⟨hmem, (no_empty_ingredient_mentions _ _ _ hmem).1,
    (no_empty_ingredient_mentions _ _ _ hmem).2⟩

instance : IsTotal Str strLe :=
  ⟨fun a b => le_total a b⟩

instance : IsTrans Str strLe :=
  ⟨fun _ _ _ hab hbc => le_trans hab hbc⟩

instance : IsAntisymm Str strLe :=
  ⟨fun _ _ hab hba => le_antisymm hab hba⟩

/-- C8: the aggregator returns lexicographically sorted, duplicate-free lists
equal (as sets) to the union of the per-step tools and methods, and its
output is invariant under permuting the step list. -/
theorem tools_methods_sorted_dedup_union (steps steps' : List Step)
    (hperm : steps.Perm steps') :
    ((collect_recipe_tools_and_methods steps).1.Sorted strLe
      ∧ (collect_recipe_tools_and_methods steps).1.Nodup
      ∧ (∀ a : Str, a ∈ (collect_recipe_tools_and_methods steps).1
          ↔ ∃ s ∈ steps, a ∈ s.tools))
    ∧ ((collect_recipe_tools_and_methods steps).2.Sorted strLe
      ∧ (collect_recipe_tools_and_methods steps).2.Nodup
      ∧ (∀ a : Str, a ∈ (collect_recipe_tools_and_methods steps).2
          ↔ ∃ s ∈ steps, a ∈ s.methods))
    ∧ collect_recipe_tools_and_methods steps
        = collect_recipe_tools_and_methods steps' := by
  refine ⟨⟨?_, ?_, ?_⟩, ⟨?_, ?_, ?_⟩, ?_⟩
  · exact List.sorted_insertionSort strLe _
  · exact (List.perm_insertionSort strLe _).nodup_iff.mpr (List.nodup_dedup _)
  · intro a
    show a ∈ List.insertionSort strLe (steps.flatMap Step.tools).dedup ↔ _
    rw [List.mem_insertionSort, List.mem_dedup, List.mem_flatMap]
  · exact List.sorted_insertionSort strLe _
  · exact (List.perm_insertionSort strLe _).nodup_iff.mpr (List.nodup_dedup _)
  · intro a
    show a ∈ List.insertionSort strLe (steps.flatMap Step.methods).dedup ↔ _
    rw [List.mem_insertionSort, List.mem_dedup, List.mem_flatMap]
  · have h1 : List.insertionSort strLe (steps.flatMap Step.tools).dedup
        = List.insertionSort strLe (steps'.flatMap Step.tools).dedup := by
      refine List.eq_of_perm_of_sorted ?_ (List.sorted_insertionSort strLe _)
        (List.sorted_insertionSort strLe _)
      exact ((List.perm_insertionSort strLe _).trans
        ((List.Perm.flatMap_right Step.tools hperm).dedup)).trans
        (List.perm_insertionSort strLe _).symm
    have h2 : List.insertionSort strLe (steps.flatMap Step.methods).dedup
        = List.insertionSort strLe (steps'.flatMap Step.methods).dedup := by
      refine List.eq_of_perm_of_sorted ?_ (List.sorted_insertionSort strLe _)
        (List.sorted_insertionSort strLe _)
      exact ((List.perm_insertionSort strLe _).trans
        ((List.Perm.flatMap_right Step.methods hperm).dedup)).trans
        (List.perm_insertionSort strLe _).symm
    show (_, _) = (_, _)
    rw [h1, h2]

/-- Witness for C8: two concrete steps, swapped, yield the same aggregated
tool and method lists. -/
theorem tools_methods_collect_perm_example :
    ([⟨1, [], [], [("pan").toList], [("mix").toList], none, none, none, [], none, none⟩,
      ⟨2, [], [], [("oven").toList], [("bake").toList], none, none, none, [], none, none⟩]
      : List Step).Perm
      [⟨2, [], [], [("oven").toList], [("bake").toList], none, none, none, [], none, none⟩,
       ⟨1, [], [], [("pan").toList], [("mix").toList], none, none, none, [], none, none⟩]
    ∧ collect_recipe_tools_and_methods
        [⟨1, [], [], [("pan").toList], [("mix").toList], none, none, none, [], none, none⟩,
         ⟨2, [], [], [("oven").toList], [("bake").toList], none, none, none, [], none, none⟩]
      = collect_recipe_tools_and_methods
        [⟨2, [], [], [("oven").toList], [("bake").toList], none, none, none, [], none, none⟩,
         ⟨1, [], [], [("pan").toList], [("mix").toList], none, none, none, [], none, none⟩] :=
  ⟨List.Perm.swap _ _ _,
   (tools_methods_sorted_dedup_union _ _ (List.Perm.swap _ _ _)).2.2⟩

/-- `takeWhile` and `dropWhile` on a list made of a satisfying prefix followed
by a failing element split exactly there. -/
lemma takeWhile_app {p : Char → Bool} : ∀ {l : Str}, (∀ x ∈ l, p x = true) →
    ∀ {y : Char}, p y = false → ∀ (r : Str),
    (l ++ y :: r).takeWhile p = l ∧ (l ++ y :: r).dropWhile p = y :: r := by
  intro l
  induction l with
  | nil =>
    intro _ y hy r
    simp [List.takeWhile_cons, List.dropWhile_cons, hy]
  | cons a l ih =>
    intro hl y hy r
    have ha : p a = true := hl a (List.mem_cons_self a l)
    have hrest := ih (fun x hx => hl x (List.mem_cons_of_mem a hx)) hy r
    simp [List.takeWhile_cons, List.dropWhile_cons, ha, hrest.1, hrest.2]

/-- Anchored at a digit run followed by a space and a non-space, non-`d`
letter matching `F|C`, the temperature pattern matches exactly the digits,
the space and that letter — whatever follows. -/
lemma tempMatch_digits_cf {d0 : Char} {ds' : Str} (c : Char) (rest : Str)
    (hdig : ∀ x ∈ d0 :: ds', Char.isDigit x = true)
    (hsp : pyIsSpace c = false)
    (hnd : ¬ c.toLower = ('d').toLower)
    (hfc : (c.toLower = 'f' || c.toLower = 'c') = true) :
    extract_temperature ((d0 :: ds') ++ ' ' :: c :: rest)
      = some ((d0 :: ds') ++ [' ', c]) := by
  have h1 := takeWhile_app hdig (show Char.isDigit ' ' = false by decide) (c :: rest)
  have hws : (' ' :: c :: rest).takeWhile pyIsSpace = [' '] := by
    simp [List.takeWhile_cons, hsp]
    decide
  have hr2 : (' ' :: c :: rest).dropWhile pyIsSpace = c :: rest := by
    simp [List.dropWhile_cons, hsp]
    decide
  have hlit : ("degrees").toList = 'd' :: ("egrees").toList := rfl
  have hci : ciTake ("degrees").toList (c :: rest) = none := by
    rw [hlit]
    unfold ciTake
    rw [if_neg hnd]
  have hmatch : tempMatchAt ((d0 :: ds') ++ ' ' :: c :: rest)
      = some ((d0 :: ds') ++ [' ', c]) := by
    unfold tempMatchAt
    dsimp only
    rw [h1.1, h1.2, hws, hr2, hci]
    rw [if_neg (by simp)]
    dsimp only
    rw [if_pos hfc]
    simp
  unfold extract_temperature
  simp only [List.cons_append] at hmatch ⊢
  rw [reSearch]
  rw [hmatch]

/-- C9: the temperature pattern's trailing `F|C` is case-insensitive and not
anchored at a word boundary, so any digit run followed by a space and a word
beginning with `c`/`f` is reported as an oven temperature — in particular
`"add 2 cups of flour"` yields the spurious `{"oven": "2 c"}` — and such a
spurious match is carried forward as the oven-temperature context of all
subsequent steps. -/
theorem temperature_spurious_match :
    extract_temperature ("add 2 cups of flour").toList = some (("2 c").toList)
    ∧ (∀ (ds : Str) (c : Char) (rest : Str),
        ds ≠ [] → (∀ d ∈ ds, d.isDigit = true) →
        (c = 'c' ∨ c = 'C' ∨ c = 'f' ∨ c = 'F') →
        extract_temperature (ds ++ ' ' :: c :: rest) = some (ds ++ [' ', c]))
    ∧ (build_steps [("add 2 cups of flour.").toList, ("Bake the cake.").toList]
        []).map Step.context
      = [some (("2 c").toList), some (("2 c").toList)] := by
  refine ⟨by decide, ?_, by decide⟩
  intro ds c rest hne hdig hc
  cases ds with
  | nil => exact absurd rfl hne
  | cons d0 ds' =>
    rcases hc with rfl | rfl | rfl | rfl
    · exact tempMatch_digits_cf _ rest hdig (by decide) (by decide) (by decide)
    · exact tempMatch_digits_cf _ rest hdig (by decide) (by decide) (by decide)
    · exact tempMatch_digits_cf _ rest hdig (by decide) (by decide) (by decide)
    · exact tempMatch_digits_cf _ rest hdig (by decide) (by decide) (by decide)

/-- Witness for C9: the hypotheses of the general conjunct hold at the digit
run `"2"`, the letter `c` and the remainder `"ups of flour"`, and the theorem
produces the spurious `"2 c"` match. -/
theorem temperature_spurious_match_example :
    ("2").toList ≠ []
    ∧ (∀ d ∈ ("2").toList, d.isDigit = true)
    ∧ ('c' = 'c' ∨ 'c' = 'C' ∨ 'c' = 'f' ∨ 'c' = 'F')
    ∧ extract_temperature (("2").toList ++ ' ' :: 'c' :: ("ups of flour").toList)
        = some (("2").toList ++ [' ', 'c']) :=
  ⟨by decide, by decide, Or.inl rfl,
   temperature_spurious_match.2.1 (("2").toList) 'c' (("ups of flour").toList)
     (by decide) (by decide) (Or.inl rfl)⟩
